import Mathlib

/-!
Shallow embedding of the melee subsystem of `melee.py`
(`AttackSpec`, `AttackHitbox`, `MeleeController`) from the
"Platforms of Rabbits" repository, together with proofs of the
specification's claims about it.

Conventions:
* pygame rectangles become integer rectangles (`Rect`);
* `pygame.Vector2` facing values become `Int × Int`;
* the per-enemy hit dictionary becomes an association list keyed by the
  enemy's index in the enemy group;
* the damage callback `on_hit` is modelled by returning the list of enemy
  indices hit during an update, in callback order;
* the facing provider `get_facing` and the (externally mutable) enemy
  group are modelled as inputs supplied at each call.
-/

namespace Melee

/-- `AttackSpec`: all tunables for a single melee move (melee.py lines 25-48). -/
structure AttackSpec where
  windup_ms : Int := 120
  active_ms : Int := 180
  recovery_ms : Int := 200
  damage : Int := 1
  hitbox_w : Int := 44
  hitbox_h : Int := 24
  hitbox_w_v : Int := 24
  hitbox_h_v : Int := 44
  front_gap_px : Int := 6
  multi_hit_interval_ms : Int := 0
  lock_facing_during_attack : Bool := false
  deriving DecidableEq

/-- `AttackSpec.total_ms = windup_ms + active_ms + recovery_ms`. -/
def AttackSpec.total_ms (s : AttackSpec) : Int :=
  s.windup_ms + s.active_ms + s.recovery_ms

/-- Integer rectangle mirroring the pygame.Rect fields melee.py uses. -/
structure Rect where
  left : Int
  top : Int
  w : Int
  h : Int
  deriving DecidableEq

def Rect.right (r : Rect) : Int := r.left + r.w

def Rect.bottom (r : Rect) : Int := r.top + r.h

def Rect.centerx (r : Rect) : Int := r.left + r.w / 2

def Rect.centery (r : Rect) : Int := r.top + r.h / 2

/-- Assignment `rect.midleft = (x, y)`. -/
def Rect.setMidleft (r : Rect) (x y : Int) : Rect :=
  { r with left := x, top := y - r.h / 2 }

/-- Assignment `rect.midright = (x, y)`. -/
def Rect.setMidright (r : Rect) (x y : Int) : Rect :=
  { r with left := x - r.w, top := y - r.h / 2 }

/-- Assignment `rect.midbottom = (x, y)`. -/
def Rect.setMidbottom (r : Rect) (x y : Int) : Rect :=
  { r with left := x - r.w / 2, top := y - r.h }

/-- Assignment `rect.midtop = (x, y)`. -/
def Rect.setMidtop (r : Rect) (x y : Int) : Rect :=
  { r with left := x - r.w / 2, top := y }

/-- pygame `colliderect`: strict overlap on both axes. -/
def Rect.colliderect (a b : Rect) : Bool :=
  decide (a.left < b.right) && decide (a.right > b.left) &&
  decide (a.top < b.bottom) && decide (a.bottom > b.top)

/-- The per-axis normalization `1 if v > 0 else (-1 if v < 0 else 0)`. -/
def sgn (v : Int) : Int :=
  if 0 < v then 1 else if v < 0 then -1 else 0

/-- Dictionary lookup on the per-enemy hit table. -/
def dictGet (tbl : List (Nat × Int)) (k : Nat) : Option Int :=
  (tbl.find? (fun p => p.1 == k)).map (fun p => p.2)

/-- Dictionary assignment `tbl[k] = v` on the per-enemy hit table. -/
def dictSet (tbl : List (Nat × Int)) (k : Nat) (v : Int) : List (Nat × Int) :=
  if (tbl.find? (fun p => p.1 == k)).isSome then
    tbl.map (fun p => if p.1 == k then (k, v) else p)
  else tbl ++ [(k, v)]

/-- `AttackHitbox` state (melee.py lines 54-104).  The surface/rect size is
carried by `rect.w`/`rect.h`; `active_start`, `active_end` and `duration`
are stored at construction exactly as in `__init__`. -/
structure AttackHitbox where
  id : Nat
  spec : AttackSpec
  facing : Int × Int
  elapsed : Int
  active_start : Int
  active_end : Int
  duration : Int
  active : Bool
  rect : Rect
  last_hit_time_by_enemy : List (Nat × Int)
  deriving DecidableEq

/-- `AttackHitbox._reposition` (melee.py lines 107-119): place the hitbox
just beyond the owner's rect in the facing direction. -/
def reposition (pr : Rect) (gap : Int) (facing : Int × Int) (r : Rect) : Rect :=
  if facing.1 = 1 then r.setMidleft (pr.right + gap) pr.centery
  else if facing.1 = -1 then r.setMidright (pr.left - gap) pr.centery
  else if facing.2 = -1 then r.setMidbottom pr.centerx (pr.top - gap)
  else if facing.2 = 1 then r.setMidtop pr.centerx (pr.bottom + gap)
  else r

/-- `AttackHitbox.__init__` (melee.py lines 65-104). -/
def AttackHitbox.init (id : Nat) (ownerRect : Rect) (spec : AttackSpec)
    (facing_vec : Int × Int) : AttackHitbox :=
  let facing : Int × Int := (sgn facing_vec.1, sgn facing_vec.2)
  let size : Int × Int :=
    if facing.2 = 0 then (spec.hitbox_w, spec.hitbox_h)
    else (spec.hitbox_w_v, spec.hitbox_h_v)
  let r0 : Rect := { left := 0, top := 0, w := size.1, h := size.2 }
  { id := id, spec := spec, facing := facing, elapsed := 0,
    active_start := spec.windup_ms,
    active_end := spec.windup_ms + spec.active_ms,
    duration := spec.total_ms, active := false,
    rect := reposition ownerRect spec.front_gap_px facing r0,
    last_hit_time_by_enemy := [] }

/-- The hit loop of `AttackHitbox.update` (melee.py lines 134-146), iterating
over the enemies (index, rect) that collide with the hitbox rect.  Returns
the updated hit table and the indices passed to `on_hit`, in order. -/
def hitPass (spec : AttackSpec) (elapsed : Int) (hbRect : Rect) :
    List (Nat × Rect) → List (Nat × Int) → List (Nat × Int) × List Nat
  | [], tbl => (tbl, [])
  | (i, er) :: rest, tbl =>
    if hbRect.colliderect er then
      if spec.multi_hit_interval_ms ≤ 0 then
        match dictGet tbl i with
        | some _ => hitPass spec elapsed hbRect rest tbl
        | none =>
          let out := hitPass spec elapsed hbRect rest (dictSet tbl i elapsed)
          (out.1, i :: out.2)
      else
        let last_t := (dictGet tbl i).getD (-10000000)
        if spec.multi_hit_interval_ms ≤ elapsed - last_t then
          let out := hitPass spec elapsed hbRect rest (dictSet tbl i elapsed)
          (out.1, i :: out.2)
        else hitPass spec elapsed hbRect rest tbl
    else hitPass spec elapsed hbRect rest tbl

/-- Result of one `AttackHitbox.update` call: new hitbox state, the enemy
indices passed to `on_hit` this call, and whether `kill()` ran. -/
structure HBUpd where
  hb : AttackHitbox
  hits : List Nat
  killed : Bool
  deriving DecidableEq

/-- `AttackHitbox.update` (melee.py lines 122-150). -/
def AttackHitbox.update (hb : AttackHitbox) (ownerRect : Rect)
    (enemies : List Rect) (dt_ms : Int) : HBUpd :=
  let elapsed := hb.elapsed + dt_ms
  let r := reposition ownerRect hb.spec.front_gap_px hb.facing hb.rect
  let active := decide (hb.active_start ≤ elapsed) && decide (elapsed < hb.active_end)
  let out :=
    if active then
      hitPass hb.spec elapsed r enemies.enum hb.last_hit_time_by_enemy
    else (hb.last_hit_time_by_enemy, [])
  { hb :=
      { hb with
        elapsed := elapsed
        rect := r
        active := active
        last_hit_time_by_enemy := out.1 }
    hits := out.2
    killed := decide (hb.duration ≤ elapsed) }

/-- The four controller phases. -/
inductive Phase where
  | idle
  | windup
  | active
  | recovery
  deriving DecidableEq

/-- `MeleeController` state (melee.py lines 156-194).  `attack_group` holds
the ids of the hitboxes currently registered in the caller's attack group
(pygame `alive()` for our hitboxes coincides with membership here);
`nextId` supplies fresh hitbox identities. -/
structure MeleeController where
  spec : AttackSpec
  ownerRect : Rect
  phase : Phase
  phase_time : Int
  locked_facing : Option (Int × Int)
  hitbox : Option AttackHitbox
  attack_group : List Nat
  nextId : Nat
  deriving DecidableEq

/-- Controller construction (melee.py lines 173-194). -/
def MeleeController.mk0 (spec : AttackSpec) (ownerRect : Rect) : MeleeController :=
  { spec := spec, ownerRect := ownerRect, phase := .idle, phase_time := 0,
    locked_facing := none, hitbox := none, attack_group := [], nextId := 0 }

/-- `MeleeController.is_attacking`. -/
def MeleeController.is_attacking (mc : MeleeController) : Bool :=
  decide (mc.phase = .windup) || decide (mc.phase = .active) ||
  decide (mc.phase = .recovery)

/-- `MeleeController._get_effective_facing`, with `f` the value the facing
provider currently returns. -/
def MeleeController.effFacing (mc : MeleeController) (f : Int × Int) : Int × Int :=
  mc.locked_facing.getD f

/-- `MeleeController.try_start` (melee.py lines 202-232), with `f` the value
the facing provider currently returns. -/
def MeleeController.try_start (mc : MeleeController) (f : Int × Int) :
    MeleeController × Bool :=
  if mc.phase ≠ .idle then (mc, false)
  else
    let locked : Option (Int × Int) :=
      if mc.spec.lock_facing_during_attack then some (sgn f.1, sgn f.2) else none
    let hb := AttackHitbox.init mc.nextId mc.ownerRect mc.spec (locked.getD f)
    ({ mc with
        phase := .windup
        phase_time := 0
        locked_facing := locked
        hitbox := some hb
        attack_group := mc.attack_group ++ [hb.id]
        nextId := mc.nextId + 1 }, true)

/-- Step 1 of `MeleeController.update` (melee.py lines 243-246): refresh the
hitbox facing and advance the hitbox, letting it self-kill. -/
def MeleeController.hbStep (mc : MeleeController) (f : Int × Int)
    (enemies : List Rect) (dt_ms : Int) : MeleeController × List Nat :=
  match mc.hitbox with
  | none => (mc, [])
  | some hb =>
    let hb1 := { hb with facing := mc.effFacing f }
    let u := hb1.update mc.ownerRect enemies dt_ms
    let grp := if u.killed then mc.attack_group.erase u.hb.id
               else mc.attack_group
    ({ mc with hitbox := some u.hb, attack_group := grp }, u.hits)

/-- `MeleeController.update` (melee.py lines 234-262), with `f` the facing
provider's current value and `enemies` the enemy group's current rects.
Returns the new state and the enemy indices passed to `on_hit`. -/
def MeleeController.update (mc : MeleeController) (f : Int × Int)
    (enemies : List Rect) (dt_ms : Int) : MeleeController × List Nat :=
  if mc.phase = .idle then (mc, [])
  else
    let step1 := mc.hbStep f enemies dt_ms
    let mc1 := step1.1
    let pt := mc1.phase_time + dt_ms
    let mc2 := { mc1 with phase_time := pt }
    if mc2.phase = .windup ∧ mc2.spec.windup_ms ≤ pt then
      ({ mc2 with phase := .active }, step1.2)
    else if mc2.phase = .active ∧ mc2.spec.windup_ms + mc2.spec.active_ms ≤ pt then
      ({ mc2 with phase := .recovery }, step1.2)
    else if mc2.phase = .recovery ∧ mc2.spec.total_ms ≤ pt then
      let grp :=
        match mc2.hitbox with
        | some hb =>
          if hb.id ∈ mc2.attack_group then mc2.attack_group.erase hb.id
          else mc2.attack_group
        | none => mc2.attack_group
      ({ mc2 with
          attack_group := grp
          hitbox := none
          phase := .idle
          phase_time := 0 }, step1.2)
    else (mc2, step1.2)

/-- One external event: an attack-button press or a frame update carrying the
facing provider's value, the enemy rects, and the frame delta. -/
inductive Ev where
  | start (f : Int × Int)
  | upd (f : Int × Int) (enemies : List Rect) (dt : Int)
  deriving DecidableEq

/-- The frame delta of an event (0 for a button press). -/
def Ev.dt : Ev → Int
  | .start _ => 0
  | .upd _ _ d => d

/-- One event applied to a controller. -/
def stepEv (mc : MeleeController) (e : Ev) : MeleeController × List Nat :=
  match e with
  | .start f => ((mc.try_start f).1, [])
  | .upd f enemies dt => mc.update f enemies dt

/-- A trace of events applied to a controller, accumulating all hits. -/
def runEv (mc : MeleeController) : List Ev → MeleeController × List Nat
  | [] => (mc, [])
  | e :: rest =>
    let r := stepEv mc e
    let s := runEv r.1 rest
    (s.1, r.2 ++ s.2)

/-- A sequence of `AttackHitbox.update` frames, each carrying that frame's
enemy rects and delta, accumulating all hits. -/
def runHB (hb : AttackHitbox) (ownerRect : Rect) :
    List (Int × List Rect) → AttackHitbox × List Nat
  | [] => (hb, [])
  | (dt, enemies) :: rest =>
    let u := hb.update ownerRect enemies dt
    let s := runHB u.hb ownerRect rest
    (s.1, u.hits ++ s.2)

/-- Concrete owner rectangle used by witnesses. -/
def owner0 : Rect := { left := 100, top := 100, w := 30, h := 44 }

/-- An enemy rectangle overlapping everything the witnesses build. -/
def bigE : Rect := { left := -1000, top := -1000, w := 3000, h := 3000 }

/-- An enemy rectangle far away from everything the witnesses build. -/
def farE : Rect := { left := 5000, top := 5000, w := 10, h := 10 }

/-- The default `AttackSpec()`. -/
def spec0 : AttackSpec := {}

/-- The transition edges of the phase cycle, including staying put. -/
def cycleEdge (p q : Phase) : Prop :=
  p = q ∨ (p = .idle ∧ q = .windup) ∨ (p = .windup ∧ q = .active) ∨
  (p = .active ∧ q = .recovery) ∨ (p = .recovery ∧ q = .idle)

/-- Structural invariant tying the controller's hitbox reference to the
attack group: when idle there is no hitbox and the group is empty, and the
group never holds anything but the current hitbox's id. -/
def groupInv (mc : MeleeController) : Prop :=
  (mc.phase = .idle → mc.hitbox = none ∧ mc.attack_group = []) ∧
  (match mc.hitbox with
   | none => mc.attack_group = []
   | some hb => mc.attack_group = [] ∨ mc.attack_group = [hb.id])

/-- The phase timer has not yet reached the current phase's transition
threshold (trivially true when idle). -/
def thresholdOK (mc : MeleeController) : Prop :=
  (mc.phase = .windup → mc.phase_time < mc.spec.windup_ms) ∧
  (mc.phase = .active → mc.phase_time < mc.spec.windup_ms + mc.spec.active_ms) ∧
  (mc.phase = .recovery → mc.phase_time < mc.spec.total_ms)

/-- Whether the hit table blocks a hit on enemy `i` at time `elapsed` for
multi-hit interval `interval`. -/
def blockedB (interval elapsed : Int) (tbl : List (Nat × Int)) (i : Nat) : Bool :=
  if interval ≤ 0 then (dictGet tbl i).isSome
  else decide (elapsed - (dictGet tbl i).getD (-10000000) < interval)

/-- No zero-delta update from `mc` could register a fresh hit: whenever the
hitbox sits inside its active window, every overlapping enemy is blocked by
the hit table. -/
def noPending (mc : MeleeController) (f : Int × Int) (enemies : List Rect) : Prop :=
  ∀ hb, mc.hitbox = some hb →
    (hb.active_start ≤ hb.elapsed ∧ hb.elapsed < hb.active_end) →
    ∀ p ∈ enemies.enum,
      Rect.colliderect
        (reposition mc.ownerRect hb.spec.front_gap_px (mc.effFacing f) hb.rect)
        p.2 = true →
      blockedB hb.spec.multi_hit_interval_ms hb.elapsed hb.last_hit_time_by_enemy
        p.1 = true

/-- Boolean form of `noPending`, for concrete evaluation. -/
def noPendingB (mc : MeleeController) (f : Int × Int) (enemies : List Rect) :
    Bool :=
  match mc.hitbox with
  | none => true
  | some hb =>
    !(decide (hb.active_start ≤ hb.elapsed) &&
        decide (hb.elapsed < hb.active_end)) ||
    enemies.enum.all fun p =>
      !(Rect.colliderect
          (reposition mc.ownerRect hb.spec.front_gap_px (mc.effFacing f)
            hb.rect) p.2) ||
      blockedB hb.spec.multi_hit_interval_ms hb.elapsed
        hb.last_hit_time_by_enemy p.1

/-- Number of hits a permanently-overlapping single target has received once
the hitbox's elapsed time reaches `k`, under 1 ms stepping, for window
`[w, w+a)` and multi-hit interval `n`. -/
def hitsUpTo (w a n k : Int) : Nat :=
  if k < w then 0 else ((min k (w + a - 1) - w) / n).toNat + 1

/-- The hit table paired with `hitsUpTo` at elapsed time `k`. -/
def tblAt (w a n k : Int) : List (Nat × Int) :=
  if k < w then [] else [(0, w + n * ((min k (w + a - 1) - w) / n))]

/-- The rectangle of a freshly positioned horizontal hitbox facing (1,0)
for spec `s` and a static owner `owner`. -/
def Rcanon (s : AttackSpec) (owner : Rect) : Rect :=
  reposition owner s.front_gap_px (1, 0)
    { left := 0, top := 0, w := s.hitbox_w, h := s.hitbox_h }

/-- Invariant for a locked-facing swing started facing (1,0): the snapshot
stays (1,0) and the live hitbox keeps the facing, spec and rectangle
computed from (1,0). -/
def lockInv (s : AttackSpec) (owner : Rect) (mc : MeleeController) : Prop :=
  mc.spec = s ∧ mc.ownerRect = owner ∧ mc.locked_facing = some (1, 0) ∧
  ∀ hb, mc.hitbox = some hb →
    hb.spec = s ∧ hb.facing = (1, 0) ∧ hb.rect = Rcanon s owner

/-- Controller just after a successful `try_start`, for witnesses. -/
def mcW : MeleeController := ((MeleeController.mk0 spec0 owner0).try_start (1, 0)).1

/-- Hitbox freshly spawned with the default spec, for witnesses. -/
def hbW : AttackHitbox := AttackHitbox.init 0 owner0 spec0 (1, 0)

/-- Spec with `multi_hit_interval_ms = 2` dividing `active_ms = 2`: the
counterexample configuration for the multi-hit count formula. -/
def spec6 : AttackSpec :=
  { windup_ms := 1, active_ms := 2, recovery_ms := 1, multi_hit_interval_ms := 2 }

/-- Small multi-hit spec used by the multi-hit count witness. -/
def spec6W : AttackSpec :=
  { windup_ms := 2, active_ms := 3, recovery_ms := 0, multi_hit_interval_ms := 2 }

/-- Default spec with facing locked during the attack. -/
def specL : AttackSpec := { lock_facing_during_attack := true }

/-- Locked-facing controller mid-swing: started facing (1,0), then updated
while the provider returns (0,1). -/
def mcLW : MeleeController :=
  (runEv ((MeleeController.mk0 specL owner0).try_start (1, 0)).1
    [.upd (0, 1) [farE] 50]).1

/-- The hitbox of `mcLW`, for witnesses. -/
def hbLW : AttackHitbox := mcLW.hitbox.getD hbW

/-- Controller in phase `active` whose phase timer already reached the
`active → recovery` threshold (reached by one 300 ms update). -/
def mcOver : MeleeController := (mcW.update (1, 0) [farE] 300).1

/-- Controller mid-active-window with the overlapping enemy already recorded
in the hit table (reached by one 130 ms update with `bigE` present). -/
def mcMid : MeleeController := (mcW.update (1, 0) [bigE] 130).1

theorem try_start_not_idle (mc : MeleeController) (f : Int × Int)
    (h : ¬mc.phase = .idle) : mc.try_start f = (mc, false) := by
  simp [MeleeController.try_start, h]

theorem reposition_idem (pr : Rect) (g : Int) (fc : Int × Int) (r : Rect) :
    reposition pr g fc (reposition pr g fc r) = reposition pr g fc r := by
  unfold reposition Rect.setMidleft Rect.setMidright Rect.setMidbottom
    Rect.setMidtop
  split_ifs <;> rfl

theorem reposition_w (pr : Rect) (g : Int) (fc : Int × Int) (r : Rect) :
    (reposition pr g fc r).w = r.w := by
  unfold reposition Rect.setMidleft Rect.setMidright Rect.setMidbottom
    Rect.setMidtop
  split_ifs <;> rfl

theorem reposition_h (pr : Rect) (g : Int) (fc : Int × Int) (r : Rect) :
    (reposition pr g fc r).h = r.h := by
  unfold reposition Rect.setMidleft Rect.setMidright Rect.setMidbottom
    Rect.setMidtop
  split_ifs <;> rfl

theorem hbStep_phase (mc : MeleeController) (f : Int × Int) (E : List Rect)
    (dt : Int) : (mc.hbStep f E dt).1.phase = mc.phase := by
  cases h : mc.hitbox <;> simp [MeleeController.hbStep, h]

theorem hbStep_fields (mc : MeleeController) (f : Int × Int) (E : List Rect)
    (dt : Int) :
    (mc.hbStep f E dt).1.phase = mc.phase ∧
    (mc.hbStep f E dt).1.phase_time = mc.phase_time ∧
    (mc.hbStep f E dt).1.spec = mc.spec ∧
    (mc.hbStep f E dt).1.locked_facing = mc.locked_facing ∧
    (mc.hbStep f E dt).1.ownerRect = mc.ownerRect := by
  cases h : mc.hitbox <;> simp [MeleeController.hbStep, h]

theorem update_phase_edge (mc : MeleeController) (f : Int × Int)
    (E : List Rect) (dt : Int) :
    cycleEdge mc.phase ((mc.update f E dt).1).phase := by
  by_cases h : mc.phase = .idle
  · simp [MeleeController.update, h, cycleEdge]
  · have hp := hbStep_phase mc f E dt
    simp only [MeleeController.update, if_neg h]
    split_ifs <;> simp_all [cycleEdge]

theorem stepEv_phase_edge (mc : MeleeController) (e : Ev) :
    cycleEdge mc.phase ((stepEv mc e).1).phase := by
  cases e with
  | start f =>
    by_cases h : mc.phase = .idle
    · simp [stepEv, MeleeController.try_start, h, cycleEdge]
    · simp [stepEv, try_start_not_idle mc f h, cycleEdge]
  | upd f E dt => exact update_phase_edge mc f E dt

/-- C1: `MeleeController.try_start` returns true iff the phase was `idle`
immediately prior; when it returns false the entire controller state —
phase, phase_time, locked-facing snapshot, hitbox reference and attack
group — is unchanged, so no new hitbox is created. -/
theorem C1_try_start_iff_idle (mc : MeleeController) (f : Int × Int) :
    ((mc.try_start f).2 = true ↔ mc.phase = .idle) ∧
    ((mc.try_start f).2 = false → (mc.try_start f).1 = mc) := by
  by_cases h : mc.phase = .idle
  · constructor
    · simp [MeleeController.try_start, h]
    · simp [MeleeController.try_start, h]
  · simp [try_start_not_idle mc f h, h]

/-- Witness for C1 at a concrete non-idle controller. -/
theorem C1_try_start_iff_idle_witness :
    ((mcW.try_start (1, 0)).2 = true ↔ mcW.phase = Phase.idle) ∧
    (mcW.try_start (1, 0)).1 = mcW :=
  ⟨(C1_try_start_iff_idle mcW (1, 0)).1,
   (C1_try_start_iff_idle mcW (1, 0)).2 (by decide)⟩

/-- C4: along any sequence of `try_start`/`update` calls (any dt ≥ 0), each
step moves the phase only along the cycle
idle → windup → active → recovery → idle, or leaves it unchanged: no phase
is skipped and none is entered out of order. -/
theorem C4_phase_cycle (mc : MeleeController) (evs : List Ev) (e : Ev)
    (hdt : 0 ≤ e.dt) :
    cycleEdge (runEv mc evs).1.phase ((stepEv (runEv mc evs).1 e).1).phase :=
  stepEv_phase_edge (runEv mc evs).1 e

/-- Witness for C4 on a concrete trace. -/
theorem C4_phase_cycle_witness :
    cycleEdge (runEv mcW []).1.phase
      ((stepEv (runEv mcW []).1 (.upd (1, 0) [farE] 16)).1).phase :=
  C4_phase_cycle mcW [] (.upd (1, 0) [farE] 16) (by decide)

/-- C8 fails on the code: a diagonal facing vector (1,1) is stored as (1,1),
not reduced to one of the four cardinals; the rectangle gets the vertical
(narrow/tall) size, not the horizontal one; only the placement resolves the
tie in favour of the horizontal axis (beside the owner). -/
theorem C8_counterexample :
    (AttackHitbox.init 0 owner0 spec0 (1, 1)).facing = (1, 1) ∧
    (AttackHitbox.init 0 owner0 spec0 (1, 1)).facing ∉
      [((1 : Int), (0 : Int)), (-1, 0), (0, 1), (0, -1)] ∧
    (AttackHitbox.init 0 owner0 spec0 (1, 1)).rect.w = spec0.hitbox_w_v ∧
    (AttackHitbox.init 0 owner0 spec0 (1, 1)).rect.h = spec0.hitbox_h_v ∧
    (AttackHitbox.init 0 owner0 spec0 (1, 1)).rect.left =
      owner0.right + spec0.front_gap_px := by
  decide

/-- C8 amended: each facing component is separately normalized to
{-1, 0, 1} (diagonals survive); the rectangle is the wide/short horizontal
one iff the normalized y component is 0, else the narrow/tall vertical one;
placement tests the horizontal axis first, so any input with a non-zero x
component is placed beside the owner on that side. -/
theorem C8_amended (s : AttackSpec) (owner : Rect) (fv : Int × Int) :
    (AttackHitbox.init 0 owner s fv).facing = (sgn fv.1, sgn fv.2) ∧
    (sgn fv.1 = -1 ∨ sgn fv.1 = 0 ∨ sgn fv.1 = 1) ∧
    (sgn fv.2 = -1 ∨ sgn fv.2 = 0 ∨ sgn fv.2 = 1) ∧
    (AttackHitbox.init 0 owner s fv).rect.w =
      (if sgn fv.2 = 0 then s.hitbox_w else s.hitbox_w_v) ∧
    (AttackHitbox.init 0 owner s fv).rect.h =
      (if sgn fv.2 = 0 then s.hitbox_h else s.hitbox_h_v) ∧
    (0 < fv.1 → (AttackHitbox.init 0 owner s fv).rect.left =
      owner.right + s.front_gap_px) ∧
    (fv.1 < 0 → (AttackHitbox.init 0 owner s fv).rect.right =
      owner.left - s.front_gap_px) ∧
    (fv.1 = 0 → fv.2 < 0 → (AttackHitbox.init 0 owner s fv).rect.bottom =
      owner.top - s.front_gap_px) ∧
    (fv.1 = 0 → 0 < fv.2 → (AttackHitbox.init 0 owner s fv).rect.top =
      owner.bottom + s.front_gap_px) := by
  have hs : ∀ v : Int, sgn v = -1 ∨ sgn v = 0 ∨ sgn v = 1 := by
    intro v; unfold sgn; split_ifs <;> simp
  refine ⟨rfl, hs fv.1, hs fv.2, ?_, ?_, ?_, ?_, ?_, ?_⟩
  · simp only [AttackHitbox.init, reposition_w]
    split_ifs <;> rfl
  · simp only [AttackHitbox.init, reposition_h]
    split_ifs <;> rfl
  · intro h
    have h1 : sgn fv.1 = 1 := by unfold sgn; simp [h]
    simp [AttackHitbox.init, reposition, h1, Rect.setMidleft]
  · intro h
    have h1 : sgn fv.1 = -1 := by
      unfold sgn; rw [if_neg (by omega), if_pos h]
    simp [AttackHitbox.init, reposition, h1, Rect.setMidright, Rect.right]
  · intro h h2
    have h1 : sgn fv.1 = 0 := by unfold sgn; simp [h]
    have hy : sgn fv.2 = -1 := by
      unfold sgn; rw [if_neg (by omega), if_pos h2]
    simp [AttackHitbox.init, reposition, h1, hy, Rect.setMidbottom, Rect.bottom]
  · intro h h2
    have h1 : sgn fv.1 = 0 := by unfold sgn; simp [h]
    have hy : sgn fv.2 = 1 := by unfold sgn; simp [h2]
    simp [AttackHitbox.init, reposition, h1, hy, Rect.setMidtop]

/-- Witness for C8 amended at concrete diagonal and vertical inputs. -/
theorem C8_amended_witness :
    (AttackHitbox.init 0 owner0 spec0 ((2 : Int), (-3 : Int))).rect.left =
      owner0.right + spec0.front_gap_px ∧
    (AttackHitbox.init 0 owner0 spec0 ((0 : Int), (-3 : Int))).rect.bottom =
      owner0.top - spec0.front_gap_px :=
  ⟨(C8_amended spec0 owner0 (2, -3)).2.2.2.2.2.1 (by decide),
   (C8_amended spec0 owner0 (0, -3)).2.2.2.2.2.2.2.1 (by decide) (by decide)⟩

theorem AttackHitbox.update_id (hb : AttackHitbox) (o : Rect) (E : List Rect)
    (dt : Int) : (hb.update o E dt).hb.id = hb.id := rfl

theorem AttackHitbox.update_spec (hb : AttackHitbox) (o : Rect) (E : List Rect)
    (dt : Int) : (hb.update o E dt).hb.spec = hb.spec := rfl

theorem AttackHitbox.update_facing (hb : AttackHitbox) (o : Rect)
    (E : List Rect) (dt : Int) : (hb.update o E dt).hb.facing = hb.facing := rfl

theorem AttackHitbox.update_bounds (hb : AttackHitbox) (o : Rect)
    (E : List Rect) (dt : Int) :
    (hb.update o E dt).hb.active_start = hb.active_start ∧
    (hb.update o E dt).hb.active_end = hb.active_end ∧
    (hb.update o E dt).hb.duration = hb.duration := ⟨rfl, rfl, rfl⟩

theorem try_start_idle_parts (mc : MeleeController) (f : Int × Int)
    (h : mc.phase = .idle) :
    (mc.try_start f).2 = true ∧
    ∃ hb, (mc.try_start f).1.hitbox = some hb ∧ hb.id = mc.nextId ∧
      (mc.try_start f).1.attack_group = mc.attack_group ++ [mc.nextId] := by
  refine ⟨by simp [MeleeController.try_start, h],
    AttackHitbox.init mc.nextId mc.ownerRect mc.spec
      ((if mc.spec.lock_facing_during_attack = true
        then some (sgn f.1, sgn f.2) else none).getD f), ?_, rfl, ?_⟩
  · simp [MeleeController.try_start, h]
  · simp [MeleeController.try_start, h, AttackHitbox.init]

theorem groupInv_mk0 (s : AttackSpec) (owner : Rect) :
    groupInv (MeleeController.mk0 s owner) := by
  exact ⟨fun _ => ⟨rfl, rfl⟩, rfl⟩

theorem groupInv_try_start (mc : MeleeController) (f : Int × Int)
    (h : groupInv mc) : groupInv (mc.try_start f).1 := by
  by_cases hp : mc.phase = .idle
  · have hg : mc.attack_group = [] := (h.1 hp).2
    constructor
    · intro hcon
      rw [MeleeController.try_start] at hcon
      simp [hp] at hcon
    · simp [MeleeController.try_start, hp, hg]
  · rw [try_start_not_idle mc f hp]
    exact h

theorem groupInv_hbStep (mc : MeleeController) (f : Int × Int) (E : List Rect)
    (dt : Int) (h : groupInv mc) : groupInv (mc.hbStep f E dt).1 := by
  cases hhb : mc.hitbox with
  | none => simpa [MeleeController.hbStep, hhb] using h
  | some hb =>
    have hg : mc.attack_group = [] ∨ mc.attack_group = [hb.id] := by
      have := h.2; rw [hhb] at this; exact this
    constructor
    · intro hcon
      exfalso
      have hnone := (h.1 (by simpa [MeleeController.hbStep, hhb] using hcon)).1
      rw [hhb] at hnone
      exact Option.noConfusion hnone
    · simp only [MeleeController.hbStep, hhb, AttackHitbox.update_id]
      rcases hg with hg | hg <;> simp [hg]

theorem groupInv_update (mc : MeleeController) (f : Int × Int) (E : List Rect)
    (dt : Int) (h : groupInv mc) : groupInv (mc.update f E dt).1 := by
  by_cases hp : mc.phase = .idle
  · simpa [MeleeController.update, hp] using h
  · have h1 := groupInv_hbStep mc f E dt h
    simp only [MeleeController.update, if_neg hp]
    set mc1 := (mc.hbStep f E dt).1 with hmc1
    split_ifs with c1 c2 c3
    · exact ⟨fun hcon => by simp at hcon, h1.2⟩
    · exact ⟨fun hcon => by simp at hcon, h1.2⟩
    · refine ⟨fun _ => ⟨rfl, ?_⟩, ?_⟩
      · cases hhb : mc1.hitbox with
        | none =>
          have : mc1.attack_group = [] := by
            have := h1.2; rw [hhb] at this; exact this
          simp [hhb, this]
        | some hb =>
          have hg : mc1.attack_group = [] ∨ mc1.attack_group = [hb.id] := by
            have := h1.2; rw [hhb] at this; exact this
          rcases hg with hg | hg <;> simp [hhb, hg, List.erase]
      · cases hhb : mc1.hitbox with
        | none =>
          have : mc1.attack_group = [] := by
            have := h1.2; rw [hhb] at this; exact this
          simp [hhb, this]
        | some hb =>
          have hg : mc1.attack_group = [] ∨ mc1.attack_group = [hb.id] := by
            have := h1.2; rw [hhb] at this; exact this
          rcases hg with hg | hg <;> simp [hhb, hg, List.erase]
    · exact ⟨fun hcon => absurd (hcon ▸ hbStep_phase mc f E dt).symm hp, h1.2⟩

theorem groupInv_stepEv (mc : MeleeController) (e : Ev) (h : groupInv mc) :
    groupInv (stepEv mc e).1 := by
  cases e with
  | start f => exact groupInv_try_start mc f h
  | upd f E dt => exact groupInv_update mc f E dt h

theorem groupInv_runEv (mc : MeleeController) (evs : List Ev)
    (h : groupInv mc) : groupInv (runEv mc evs).1 := by
  induction evs generalizing mc with
  | nil => exact h
  | cons e rest ih =>
    simp only [runEv]
    exact ih _ (groupInv_stepEv mc e h)

/-- C5: along any event trace from a fresh controller, the attack group
holds at most one hitbox id; a successful `try_start` leaves exactly one
hitbox, registered in the group; a failed `try_start` (controller not yet
back to idle) changes nothing, so no second hitbox is created. -/
theorem C5_single_hitbox (s : AttackSpec) (owner : Rect) (evs : List Ev)
    (f : Int × Int) :
    (runEv (MeleeController.mk0 s owner) evs).1.attack_group.length ≤ 1 ∧
    (((runEv (MeleeController.mk0 s owner) evs).1.try_start f).2 = true →
      ∃ hb, ((runEv (MeleeController.mk0 s owner) evs).1.try_start f).1.hitbox
          = some hb ∧
        ((runEv (MeleeController.mk0 s owner) evs).1.try_start f).1.attack_group
          = [hb.id]) ∧
    (((runEv (MeleeController.mk0 s owner) evs).1.try_start f).2 = false →
      ((runEv (MeleeController.mk0 s owner) evs).1.try_start f).1
        = (runEv (MeleeController.mk0 s owner) evs).1) := by
  have hinv := groupInv_runEv _ evs (groupInv_mk0 s owner)
  set mc := (runEv (MeleeController.mk0 s owner) evs).1 with hmc
  refine ⟨?_, ?_, ?_⟩
  · cases hhb : mc.hitbox with
    | none =>
      have := hinv.2; rw [hhb] at this; simp [this]
    | some hb =>
      have := hinv.2; rw [hhb] at this
      rcases this with hg | hg <;> simp [hg]
  · intro hs
    have hp : mc.phase = .idle := by
      by_contra hcon
      rw [try_start_not_idle mc f hcon] at hs
      exact Bool.noConfusion hs
    have hg : mc.attack_group = [] := (hinv.1 hp).2
    obtain ⟨-, hb, hhb, hid, hgr⟩ := try_start_idle_parts mc f hp
    exact ⟨hb, hhb, by rw [hgr, hg, hid]; rfl⟩
  · intro hs
    by_cases hp : mc.phase = .idle
    · rw [(try_start_idle_parts mc f hp).1] at hs
      exact Bool.noConfusion hs
    · rw [try_start_not_idle mc f hp]

/-- Witness for C5 on a concrete trace ending mid-swing. -/
theorem C5_single_hitbox_witness :
    ((runEv (MeleeController.mk0 spec0 owner0) [.start (1, 0)]).1.try_start
      (1, 0)).1 = (runEv (MeleeController.mk0 spec0 owner0) [.start (1, 0)]).1 :=
  (C5_single_hitbox spec0 owner0 [.start (1, 0)] (1, 0)).2.2 (by decide)

theorem AttackHitbox.update_rect (hb : AttackHitbox) (o : Rect)
    (E : List Rect) (dt : Int) :
    (hb.update o E dt).hb.rect
      = reposition o hb.spec.front_gap_px hb.facing hb.rect := rfl

theorem lockInv_update (s : AttackSpec) (owner : Rect) (mc : MeleeController)
    (f : Int × Int) (E : List Rect) (dt : Int) (h : lockInv s owner mc) :
    lockInv s owner (mc.update f E dt).1 := by
  by_cases hp : mc.phase = .idle
  · simpa [MeleeController.update, hp] using h
  · obtain ⟨hspec, howner, hlock, hhbP⟩ := h
    have heff : mc.effFacing f = (1, 0) := by
      simp [MeleeController.effFacing, hlock]
    have h1 : lockInv s owner (mc.hbStep f E dt).1 := by
      cases hhb : mc.hitbox with
      | none =>
        simp only [MeleeController.hbStep, hhb]
        exact ⟨hspec, howner, hlock, hhbP⟩
      | some hb =>
        obtain ⟨hbs, hbf, hbr⟩ := hhbP hb hhb
        simp only [MeleeController.hbStep, hhb]
        refine ⟨hspec, howner, hlock, ?_⟩
        intro hb2 hhb2
        have hb2eq :
            ({ hb with facing := mc.effFacing f }.update mc.ownerRect E dt).hb
              = hb2 := Option.some.inj hhb2
        subst hb2eq
        refine ⟨?_, ?_, ?_⟩
        · rw [AttackHitbox.update_spec]; exact hbs
        · rw [AttackHitbox.update_facing]; exact heff
        · rw [AttackHitbox.update_rect]
          show reposition mc.ownerRect hb.spec.front_gap_px
            (mc.effFacing f) hb.rect = Rcanon s owner
          rw [howner, hbs, heff, hbr]
          exact reposition_idem owner s.front_gap_px (1, 0) _
    simp only [MeleeController.update, if_neg hp]
    split_ifs with c1 c2 c3
    · exact ⟨h1.1, h1.2.1, h1.2.2.1, h1.2.2.2⟩
    · exact ⟨h1.1, h1.2.1, h1.2.2.1, h1.2.2.2⟩
    · exact ⟨h1.1, h1.2.1, h1.2.2.1, fun hb2 hcon => Option.noConfusion hcon⟩
    · exact ⟨h1.1, h1.2.1, h1.2.2.1, h1.2.2.2⟩

theorem lockInv_start (s : AttackSpec) (owner : Rect)
    (hlock : s.lock_facing_during_attack = true) :
    lockInv s owner ((MeleeController.mk0 s owner).try_start (1, 0)).1 := by
  have hsg : (sgn 1, sgn 0) = ((1 : Int), (0 : Int)) := by decide
  refine ⟨rfl, rfl, ?_, ?_⟩
  · show (if s.lock_facing_during_attack = true
      then some (sgn 1, sgn 0) else none) = some (1, 0)
    rw [if_pos hlock, hsg]
  · intro hb hhb
    simp only [MeleeController.try_start, MeleeController.mk0] at hhb
    rw [if_neg (by simp), if_pos hlock] at hhb
    simp only [hsg] at hhb
    have hbeq : AttackHitbox.init 0 owner s ((some ((1 : Int), (0 : Int))).getD
      (1, 0)) = hb := Option.some.inj hhb
    subst hbeq
    refine ⟨rfl, hsg, ?_⟩
    show reposition owner s.front_gap_px (sgn 1, sgn 0)
      { left := 0, top := 0, w := _, h := _ } = Rcanon s owner
    rw [hsg]
    rfl

theorem lockInv_runUpd (s : AttackSpec) (owner : Rect)
    (frames : List ((Int × Int) × List Rect × Int)) (mc : MeleeController)
    (h : lockInv s owner mc) :
    lockInv s owner
      (runEv mc (frames.map fun t => Ev.upd t.1 t.2.1 t.2.2)).1 := by
  induction frames generalizing mc with
  | nil => exact h
  | cons fr rest ih =>
    simp only [List.map, runEv, stepEv]
    exact ih _ (lockInv_update s owner mc fr.1 fr.2.1 fr.2.2 h)

/-- C7: with `lock_facing_during_attack = true`, a swing started while the
provider returns (1,0) keeps the hitbox's facing, its wide/short horizontal
size and its right-of-owner rectangle computed from (1,0) across every
subsequent frame, no matter what the provider returns afterwards. -/
theorem C7_locked_facing (s : AttackSpec) (owner : Rect)
    (hlock : s.lock_facing_during_attack = true)
    (frames : List ((Int × Int) × List Rect × Int)) (hb : AttackHitbox)
    (hhb : (runEv ((MeleeController.mk0 s owner).try_start (1, 0)).1
      (frames.map fun t => Ev.upd t.1 t.2.1 t.2.2)).1.hitbox = some hb) :
    hb.facing = (1, 0) ∧ hb.rect.w = s.hitbox_w ∧ hb.rect.h = s.hitbox_h ∧
    hb.rect = Rcanon s owner := by
  have h := lockInv_runUpd s owner frames _ (lockInv_start s owner hlock)
  obtain ⟨-, -, -, hP⟩ := h
  obtain ⟨hs, hf, hr⟩ := hP hb hhb
  refine ⟨hf, ?_, ?_, hr⟩
  · rw [hr, Rcanon, reposition_w]
  · rw [hr, Rcanon, reposition_h]

/-- Witness for C7: locked swing, provider switched to (0,1) mid-windup. -/
theorem C7_locked_facing_witness :
    hbLW.facing = (1, 0) ∧ hbLW.rect = Rcanon specL owner0 :=
  ⟨(C7_locked_facing specL owner0 (by decide) [((0, 1), [farE], 50)] hbLW
      (by decide)).1,
   (C7_locked_facing specL owner0 (by decide) [((0, 1), [farE], 50)] hbLW
      (by decide)).2.2.2⟩

/-- C2 fails as stated: with the default spec (multi-hit 0) and a target
overlapping everything, a swing whose single 500 ms frame skips the active
window completes with zero damage callbacks, not one. -/
theorem C2_counterexample :
    spec0.multi_hit_interval_ms = 0 ∧
    Rect.colliderect hbW.rect bigE = true ∧
    (runEv mcW [.upd (1, 0) [bigE] 500, .upd (1, 0) [bigE] 0,
      .upd (1, 0) [bigE] 0]).1.phase = Phase.idle ∧
    (runEv mcW [.upd (1, 0) [bigE] 500, .upd (1, 0) [bigE] 0,
      .upd (1, 0) [bigE] 0]).2 = [] := by
  decide

/-- C6 fails as stated: with windup 1, active 2, interval N = 2 and 1 ms
frames covering the whole swing of an always-overlapping target, the code
delivers 1 callback while floor(active/N) + 1 = 2. -/
theorem C6_counterexample :
    (runHB (AttackHitbox.init 0 owner0 spec6 (1, 0)) owner0
      (List.replicate 4 ((1 : Int), [bigE]))).2.length = 1 ∧
    spec6.active_ms / spec6.multi_hit_interval_ms + 1 = 2 := by
  decide

theorem snd_mem_enumFrom {α : Type _} :
    ∀ (l : List α) (n : Nat) (p : Nat × α), p ∈ l.enumFrom n → p.2 ∈ l := by
  intro l
  induction l with
  | nil => intro n p h; simp [List.enumFrom] at h
  | cons a t ih =>
    intro n p h
    rcases List.mem_cons.mp h with h | h
    · subst h; simp
    · exact List.mem_cons_of_mem _ (ih (n + 1) p h)

theorem snd_mem_enum {α : Type _} {l : List α} {p : Nat × α}
    (h : p ∈ l.enum) : p.2 ∈ l :=
  snd_mem_enumFrom l 0 p h

theorem hitPass_no_collide (s : AttackSpec) (el : Int) (R : Rect) :
    ∀ (L : List (Nat × Rect)) (tbl : List (Nat × Int)),
    (∀ p ∈ L, R.colliderect p.2 = false) → hitPass s el R L tbl = (tbl, []) := by
  intro L
  induction L with
  | nil => intro tbl _; rfl
  | cons p rest ih =>
    intro tbl hL
    obtain ⟨i, er⟩ := p
    have h0 : R.colliderect er = false := hL (i, er) (by simp)
    simp only [hitPass, h0, Bool.false_eq_true, if_false]
    exact ih tbl fun q hq => hL q (List.mem_cons_of_mem _ hq)

theorem hitPass_skip_recorded (s : AttackSpec) (el : Int) (R er : Rect)
    (t : Int) (hmh : s.multi_hit_interval_ms ≤ 0) :
    hitPass s el R [(0, er)] [(0, t)] = ([(0, t)], []) := by
  simp only [hitPass]
  split_ifs with hc
  · simp [hmh, dictGet, hitPass]
  · rfl

theorem hitPass_hit_fresh (s : AttackSpec) (el : Int) (R er : Rect)
    (hmh : s.multi_hit_interval_ms ≤ 0) (hc : R.colliderect er = true) :
    hitPass s el R [(0, er)] [] = ([(0, el)], [0]) := by
  simp [hitPass, hmh, hc, dictGet, dictSet]

theorem runHB_after_hit (owner : Rect) (e : Rect) (dts : List Int) :
    ∀ (hb : AttackHitbox) (t : Int),
    hb.spec.multi_hit_interval_ms ≤ 0 →
    hb.last_hit_time_by_enemy = [(0, t)] →
    (runHB hb owner (dts.map fun d => (d, [e]))).2 = [] := by
  induction dts with
  | nil => intro hb t _ _; rfl
  | cons d rest ih =>
    intro hb t hmh htbl
    have hout : (hb.update owner [e] d).hits = [] ∧
        (hb.update owner [e] d).hb.last_hit_time_by_enemy = [(0, t)] := by
      simp only [AttackHitbox.update]
      split_ifs with hact
      · rw [htbl]
        rw [show ([e] : List Rect).enum = [(0, e)] from rfl,
          hitPass_skip_recorded hb.spec (hb.elapsed + d) _ e t hmh]
        exact ⟨by trivial, by trivial⟩
      · exact ⟨by trivial, htbl⟩
    simp only [List.map, runHB, hout.1, List.nil_append]
    exact ih (hb.update owner [e] d).hb t
      (by rw [AttackHitbox.update_spec]; exact hmh) hout.2

theorem window_shift (lo hi e0 d : Int) (rest : List Int) :
    (∃ k, k < (d :: rest).length ∧ lo ≤ e0 + ((d :: rest).take (k + 1)).sum ∧
      e0 + ((d :: rest).take (k + 1)).sum < hi) ↔
    ((lo ≤ e0 + d ∧ e0 + d < hi) ∨
      ∃ j, j < rest.length ∧ lo ≤ e0 + d + (rest.take (j + 1)).sum ∧
        e0 + d + (rest.take (j + 1)).sum < hi) := by
  constructor
  · rintro ⟨k, hk, h1, h2⟩
    cases k with
    | zero =>
      left
      simp only [List.take, List.sum_cons, List.sum_nil, add_zero] at h1 h2
      exact ⟨h1, h2⟩
    | succ j =>
      right
      refine ⟨j, by simpa using hk, ?_, ?_⟩ <;>
      · simp only [List.take_succ_cons, List.sum_cons] at h1 h2
        omega
  · rintro (⟨h1, h2⟩ | ⟨j, hj, h1, h2⟩)
    · exact ⟨0, by simp, by simpa using h1, by simpa using h2⟩
    · refine ⟨j + 1, by simpa using hj, ?_, ?_⟩ <;>
      · simp only [List.take_succ_cons, List.sum_cons]
        omega

theorem runHB_no_hit_yet (owner : Rect) (e : Rect) (dts : List Int) :
    ∀ (hb : AttackHitbox),
    hb.spec.multi_hit_interval_ms ≤ 0 →
    hb.last_hit_time_by_enemy = [] →
    (reposition owner hb.spec.front_gap_px hb.facing hb.rect).colliderect e
      = true →
    (runHB hb owner (dts.map fun d => (d, [e]))).2 =
      (if ∃ k, k < dts.length ∧
          hb.active_start ≤ hb.elapsed + (dts.take (k + 1)).sum ∧
          hb.elapsed + (dts.take (k + 1)).sum < hb.active_end
       then [0] else []) := by
  induction dts with
  | nil => intro hb _ _ _; simp [runHB]
  | cons d rest ih =>
    intro hb hmh htbl hcol
    by_cases hwin : hb.active_start ≤ hb.elapsed + d ∧
        hb.elapsed + d < hb.active_end
    · have hact : (decide (hb.active_start ≤ hb.elapsed + d) &&
          decide (hb.elapsed + d < hb.active_end)) = true := by
        simp [hwin.1, hwin.2]
      have hu : (hb.update owner [e] d).hits = [0] ∧
          (hb.update owner [e] d).hb.last_hit_time_by_enemy
            = [(0, hb.elapsed + d)] := by
        simp only [AttackHitbox.update, hact, if_true]
        rw [htbl, show ([e] : List Rect).enum = [(0, e)] from rfl,
          hitPass_hit_fresh hb.spec (hb.elapsed + d) _ e hmh hcol]
        exact ⟨by trivial, by trivial⟩
      have hrest := runHB_after_hit owner e rest (hb.update owner [e] d).hb
        (hb.elapsed + d) (by rw [AttackHitbox.update_spec]; exact hmh) hu.2
      simp only [List.map, runHB, hu.1, hrest]
      rw [if_pos ⟨0, by simp, by simpa using hwin.1, by simpa using hwin.2⟩]
      rfl
    · have hact : (decide (hb.active_start ≤ hb.elapsed + d) &&
          decide (hb.elapsed + d < hb.active_end)) = false := by
        rw [Bool.and_eq_false_iff]
        rcases Decidable.not_and_iff_or_not.mp hwin with h | h
        · exact Or.inl (by simpa using h)
        · exact Or.inr (by simpa using h)
      have hu : (hb.update owner [e] d).hits = [] ∧
          (hb.update owner [e] d).hb.last_hit_time_by_enemy = [] := by
        simp only [AttackHitbox.update, hact, Bool.false_eq_true, if_false]
        exact ⟨by trivial, htbl⟩
      have hcol2 : (reposition owner
          (hb.update owner [e] d).hb.spec.front_gap_px
          (hb.update owner [e] d).hb.facing
          (hb.update owner [e] d).hb.rect).colliderect e = true := by
        rw [AttackHitbox.update_spec, AttackHitbox.update_facing,
          AttackHitbox.update_rect, reposition_idem]
        exact hcol
      simp only [List.map, runHB, hu.1, List.nil_append]
      rw [ih (hb.update owner [e] d).hb
        (by rw [AttackHitbox.update_spec]; exact hmh) hu.2 hcol2]
      have hsh := window_shift hb.active_start hb.active_end hb.elapsed d rest
      rw [show (hb.update owner [e] d).hb.elapsed = hb.elapsed + d from rfl,
        show (hb.update owner [e] d).hb.active_start = hb.active_start from rfl,
        show (hb.update owner [e] d).hb.active_end = hb.active_end from rfl]
      by_cases hex : ∃ j, j < rest.length ∧
          hb.active_start ≤ hb.elapsed + d + (rest.take (j + 1)).sum ∧
          hb.elapsed + d + (rest.take (j + 1)).sum < hb.active_end
      · rw [if_pos hex, if_pos (hsh.mpr (Or.inr hex))]
      · rw [if_neg hex, if_neg ?hno]
        case hno =>
          intro hcon
          rcases hsh.mp hcon with h | h
          · exact hwin h
          · exact hex h

/-- C2 amended: with `multi_hit_interval_ms = 0` and a single target whose
rectangle overlaps the hitbox, a swing delivers exactly one damage callback
iff at least one update lands the elapsed time inside the active window
`[windup_ms, windup_ms + active_ms)`, and never more than one; frames that
skip the window entirely (e.g. one large dt) deliver zero. -/
theorem C2_once_per_swing (s : AttackSpec) (owner : Rect) (fv : Int × Int)
    (e : Rect) (dts : List Int)
    (hmh : s.multi_hit_interval_ms = 0)
    (hcol : Rect.colliderect (AttackHitbox.init 0 owner s fv).rect e = true) :
    (runHB (AttackHitbox.init 0 owner s fv) owner
        (dts.map fun d => (d, [e]))).2.length =
      (if ∃ k, k < dts.length ∧
          s.windup_ms ≤ (dts.take (k + 1)).sum ∧
          (dts.take (k + 1)).sum < s.windup_ms + s.active_ms
       then 1 else 0) := by
  have hcol2 : (reposition owner
      (AttackHitbox.init 0 owner s fv).spec.front_gap_px
      (AttackHitbox.init 0 owner s fv).facing
      (AttackHitbox.init 0 owner s fv).rect).colliderect e = true := by
    rw [show (AttackHitbox.init 0 owner s fv).rect = reposition owner
      s.front_gap_px (sgn fv.1, sgn fv.2)
      { left := 0, top := 0,
        w := (if sgn fv.2 = 0 then (s.hitbox_w, s.hitbox_h)
              else (s.hitbox_w_v, s.hitbox_h_v)).1,
        h := (if sgn fv.2 = 0 then (s.hitbox_w, s.hitbox_h)
              else (s.hitbox_w_v, s.hitbox_h_v)).2 } from rfl]
    rw [show (AttackHitbox.init 0 owner s fv).spec = s from rfl,
      show (AttackHitbox.init 0 owner s fv).facing
        = (sgn fv.1, sgn fv.2) from rfl]
    rw [reposition_idem]
    exact hcol
  have h := runHB_no_hit_yet owner e dts (AttackHitbox.init 0 owner s fv)
    (by rw [show (AttackHitbox.init 0 owner s fv).spec = s from rfl, hmh])
    rfl hcol2
  rw [h]
  rw [show (AttackHitbox.init 0 owner s fv).elapsed = 0 from rfl,
    show (AttackHitbox.init 0 owner s fv).active_start = s.windup_ms from rfl,
    show (AttackHitbox.init 0 owner s fv).active_end
      = s.windup_ms + s.active_ms from rfl]
  simp only [zero_add]
  split_ifs <;> rfl

/-- Witness for C2 amended: 130 ms then 200 ms frames land in the window. -/
theorem C2_once_per_swing_witness :
    (runHB (AttackHitbox.init 0 owner0 spec0 (1, 0)) owner0
      ([130, 200].map fun d => (d, [bigE]))).2.length = 1 := by
  rw [C2_once_per_swing spec0 owner0 (1, 0) bigE [130, 200] rfl (by decide)]
  decide

theorem init_reposition_fix (s : AttackSpec) (owner : Rect) (fv : Int × Int)
    (idn : Nat) :
    reposition owner (AttackHitbox.init idn owner s fv).spec.front_gap_px
      (AttackHitbox.init idn owner s fv).facing
      (AttackHitbox.init idn owner s fv).rect
      = (AttackHitbox.init idn owner s fv).rect := by
  have h := reposition_idem owner s.front_gap_px (sgn fv.1, sgn fv.2)
    { left := 0, top := 0,
      w := (if sgn fv.2 = 0 then (s.hitbox_w, s.hitbox_h)
            else (s.hitbox_w_v, s.hitbox_h_v)).1,
      h := (if sgn fv.2 = 0 then (s.hitbox_w, s.hitbox_h)
            else (s.hitbox_w_v, s.hitbox_h_v)).2 }
  exact h

theorem runHB_miss (owner : Rect) :
    ∀ (frames : List (Int × List Rect)) (hb : AttackHitbox),
    (∀ k, k < frames.length →
      (hb.active_start ≤ hb.elapsed + ((frames.take (k + 1)).map Prod.fst).sum ∧
        hb.elapsed + ((frames.take (k + 1)).map Prod.fst).sum < hb.active_end) →
      ∀ er ∈ ((frames.drop k).headD ((0 : Int), ([] : List Rect))).2,
        (reposition owner hb.spec.front_gap_px hb.facing hb.rect).colliderect er
          = false) →
    (runHB hb owner frames).2 = [] := by
  intro frames
  induction frames with
  | nil => intro hb _; rfl
  | cons fr rest ih =>
    intro hb hQ
    obtain ⟨d, E⟩ := fr
    have hstep : (hb.update owner E d).hits = [] := by
      by_cases hwin : hb.active_start ≤ hb.elapsed + d ∧
          hb.elapsed + d < hb.active_end
      · have hnc : ∀ er ∈ E, (reposition owner hb.spec.front_gap_px hb.facing
            hb.rect).colliderect er = false := by
          have h0 := hQ 0 (by simp) ?_
          · simpa using h0
          · simpa using hwin
        have hact : (decide (hb.active_start ≤ hb.elapsed + d) &&
            decide (hb.elapsed + d < hb.active_end)) = true := by
          simp [hwin.1, hwin.2]
        simp only [AttackHitbox.update, hact, if_true]
        rw [hitPass_no_collide hb.spec (hb.elapsed + d) _ E.enum
          hb.last_hit_time_by_enemy (fun p hp => hnc p.2 (snd_mem_enum hp))]
      · have hact : (decide (hb.active_start ≤ hb.elapsed + d) &&
            decide (hb.elapsed + d < hb.active_end)) = false := by
          rw [Bool.and_eq_false_iff]
          rcases Decidable.not_and_iff_or_not.mp hwin with h | h
          · exact Or.inl (by simpa using h)
          · exact Or.inr (by simpa using h)
        simp only [AttackHitbox.update, hact, Bool.false_eq_true, if_false]
    have hQ2 : ∀ k, k < rest.length →
        ((hb.update owner E d).hb.active_start ≤
            (hb.update owner E d).hb.elapsed +
              ((rest.take (k + 1)).map Prod.fst).sum ∧
          (hb.update owner E d).hb.elapsed +
              ((rest.take (k + 1)).map Prod.fst).sum <
            (hb.update owner E d).hb.active_end) →
        ∀ er ∈ ((rest.drop k).headD ((0 : Int), ([] : List Rect))).2,
          (reposition owner (hb.update owner E d).hb.spec.front_gap_px
            (hb.update owner E d).hb.facing
            (hb.update owner E d).hb.rect).colliderect er = false := by
      intro k hk hw er her
      rw [AttackHitbox.update_spec, AttackHitbox.update_facing,
        AttackHitbox.update_rect, reposition_idem]
      have hw2 : hb.active_start ≤ (hb.elapsed + d) +
          ((rest.take (k + 1)).map Prod.fst).sum ∧
          (hb.elapsed + d) + ((rest.take (k + 1)).map Prod.fst).sum <
            hb.active_end := hw
      refine hQ (k + 1) (by simpa using hk) ?_ er her
      simp only [List.take_succ_cons, List.map_cons, List.sum_cons]
      constructor <;> omega
    simp only [runHB, hstep, List.nil_append]
    exact ih (hb.update owner E d).hb hQ2

/-- C3: `AttackHitbox.init` stores the window bounds `windup_ms` and
`windup_ms + active_ms` and starts inactive; after any update, the active
flag is set iff the new elapsed time lies in `[active_start, active_end)`
(the bounds and elapsed accumulation never change); damage callbacks can
only be emitted on an update whose new elapsed time satisfies that
condition; hence a run whose target overlaps only while elapsed is in the
windup or recovery range delivers zero callbacks. -/
theorem C3_active_window :
    (∀ (idn : Nat) (owner : Rect) (s : AttackSpec) (fv : Int × Int),
      (AttackHitbox.init idn owner s fv).active_start = s.windup_ms ∧
      (AttackHitbox.init idn owner s fv).active_end
        = s.windup_ms + s.active_ms ∧
      (AttackHitbox.init idn owner s fv).active = false) ∧
    (∀ (hb : AttackHitbox) (o : Rect) (E : List Rect) (dt : Int),
      ((hb.update o E dt).hb.active = true ↔
        hb.active_start ≤ hb.elapsed + dt ∧ hb.elapsed + dt < hb.active_end) ∧
      (hb.update o E dt).hb.elapsed = hb.elapsed + dt ∧
      (hb.update o E dt).hb.active_start = hb.active_start ∧
      (hb.update o E dt).hb.active_end = hb.active_end) ∧
    (∀ (hb : AttackHitbox) (o : Rect) (E : List Rect) (dt : Int),
      (hb.update o E dt).hits ≠ [] →
        hb.active_start ≤ hb.elapsed + dt ∧ hb.elapsed + dt < hb.active_end) ∧
    (∀ (s : AttackSpec) (owner : Rect) (fv : Int × Int)
        (frames : List (Int × List Rect)),
      (∀ k, k < frames.length →
        (s.windup_ms ≤ ((frames.take (k + 1)).map Prod.fst).sum ∧
          ((frames.take (k + 1)).map Prod.fst).sum
            < s.windup_ms + s.active_ms) →
        ∀ er ∈ ((frames.drop k).headD ((0 : Int), ([] : List Rect))).2,
          Rect.colliderect (AttackHitbox.init 0 owner s fv).rect er = false) →
      (runHB (AttackHitbox.init 0 owner s fv) owner frames).2 = []) := by
  refine ⟨fun idn owner s fv => ⟨rfl, rfl, rfl⟩, ?_, ?_, ?_⟩
  · intro hb o E dt
    refine ⟨?_, rfl, rfl, rfl⟩
    simp only [AttackHitbox.update, Bool.and_eq_true, decide_eq_true_eq]
  · intro hb o E dt hne
    by_cases hwin : hb.active_start ≤ hb.elapsed + dt ∧
        hb.elapsed + dt < hb.active_end
    · exact hwin
    · exfalso
      have hact : (decide (hb.active_start ≤ hb.elapsed + dt) &&
          decide (hb.elapsed + dt < hb.active_end)) = false := by
        rw [Bool.and_eq_false_iff]
        rcases Decidable.not_and_iff_or_not.mp hwin with h | h
        · exact Or.inl (by simpa using h)
        · exact Or.inr (by simpa using h)
      apply hne
      simp only [AttackHitbox.update, hact, Bool.false_eq_true, if_false]
  · intro s owner fv frames hQ
    apply runHB_miss owner frames (AttackHitbox.init 0 owner s fv)
    intro k hk hw er her
    rw [init_reposition_fix]
    refine hQ k hk ?_ er her
    have hw2 : s.windup_ms ≤ 0 + ((frames.take (k + 1)).map Prod.fst).sum ∧
        0 + ((frames.take (k + 1)).map Prod.fst).sum
          < s.windup_ms + s.active_ms := hw
    simpa using hw2

/-- Witness for C3: a 130 ms update emits hits only inside the window, and
a swing overlapping `bigE` only at elapsed 500 (outside the window)
delivers no callback. -/
theorem C3_active_window_witness :
    (hbW.active_start ≤ hbW.elapsed + 130 ∧
      hbW.elapsed + 130 < hbW.active_end) ∧
    (runHB (AttackHitbox.init 0 owner0 spec0 (1, 0)) owner0
      [(500, [bigE])]).2 = [] :=
  ⟨C3_active_window.2.2.1 hbW owner0 [bigE] 130 (by decide),
   C3_active_window.2.2.2 spec0 owner0 (1, 0) [(500, [bigE])] (by decide)⟩

theorem noPendingB_sound (mc : MeleeController) (f : Int × Int)
    (E : List Rect) (h : noPendingB mc f E = true) : noPending mc f E := by
  intro hb hhb hw p hp hc
  rw [noPendingB, hhb] at h
  rcases Bool.or_eq_true_iff.mp h with h | h
  · exfalso
    rw [Bool.not_eq_eq_eq_not] at h
    simp only [Bool.not_true, Bool.and_eq_false_iff] at h
    rcases h with h | h <;> simp only [decide_eq_false_iff_not] at h
    · exact h hw.1
    · exact h hw.2
  · have h2 := List.all_eq_true.mp h p hp
    rcases Bool.or_eq_true_iff.mp h2 with h2 | h2
    · rw [Bool.not_eq_eq_eq_not, Bool.not_true] at h2
      rw [hc] at h2
      exact Bool.noConfusion h2
    · exact h2

theorem hitPass_blocked (s : AttackSpec) (el : Int) (R : Rect) :
    ∀ (L : List (Nat × Rect)) (tbl : List (Nat × Int)),
    (∀ p ∈ L, R.colliderect p.2 = true →
      blockedB s.multi_hit_interval_ms el tbl p.1 = true) →
    hitPass s el R L tbl = (tbl, []) := by
  intro L
  induction L with
  | nil => intro tbl _; rfl
  | cons p rest ih =>
    intro tbl hL
    obtain ⟨i, er⟩ := p
    by_cases hc : R.colliderect er = true
    · have hbl := hL (i, er) (by simp) hc
      simp only [hitPass, hc, if_true]
      by_cases hmh : s.multi_hit_interval_ms ≤ 0
      · rw [if_pos hmh]
        rw [blockedB, if_pos hmh] at hbl
        have hbl2 : (dictGet tbl i).isSome = true := hbl
        obtain ⟨t, ht⟩ := Option.isSome_iff_exists.mp hbl2
        rw [ht]
        exact ih tbl fun q hq hcq => hL q (List.mem_cons_of_mem _ hq) hcq
      · rw [if_neg hmh]
        rw [blockedB, if_neg hmh] at hbl
        have hlt : el - (dictGet tbl i).getD (-10000000)
            < s.multi_hit_interval_ms := of_decide_eq_true hbl
        rw [if_neg (by omega)]
        exact ih tbl fun q hq hcq => hL q (List.mem_cons_of_mem _ hq) hcq
    · have hcf : R.colliderect er = false := by
        cases hcc : R.colliderect er
        · rfl
        · exact absurd hcc hc
      simp only [hitPass, hcf, Bool.false_eq_true, if_false]
      exact ih tbl fun q hq hcq => hL q (List.mem_cons_of_mem _ hq) hcq

theorem hb_update_zero (hb : AttackHitbox) (o : Rect) (E : List Rect)
    (hblock : (hb.active_start ≤ hb.elapsed ∧ hb.elapsed < hb.active_end) →
      ∀ p ∈ E.enum,
        (reposition o hb.spec.front_gap_px hb.facing hb.rect).colliderect p.2
          = true →
        blockedB hb.spec.multi_hit_interval_ms hb.elapsed
          hb.last_hit_time_by_enemy p.1 = true) :
    (hb.update o E 0).hits = [] ∧
    (hb.update o E 0).hb.elapsed = hb.elapsed ∧
    (hb.update o E 0).hb.last_hit_time_by_enemy
      = hb.last_hit_time_by_enemy := by
  simp only [AttackHitbox.update, add_zero]
  by_cases hwin : hb.active_start ≤ hb.elapsed ∧ hb.elapsed < hb.active_end
  · have hact : (decide (hb.active_start ≤ hb.elapsed) &&
        decide (hb.elapsed < hb.active_end)) = true := by
      simp [hwin.1, hwin.2]
    simp only [hact, if_true]
    rw [hitPass_blocked hb.spec hb.elapsed _ E.enum
      hb.last_hit_time_by_enemy (hblock hwin)]
    exact ⟨by trivial, by trivial, by trivial⟩
  · have hact : (decide (hb.active_start ≤ hb.elapsed) &&
        decide (hb.elapsed < hb.active_end)) = false := by
      rw [Bool.and_eq_false_iff]
      rcases Decidable.not_and_iff_or_not.mp hwin with h | h
      · exact Or.inl (by simpa using h)
      · exact Or.inr (by simpa using h)
    simp only [hact, Bool.false_eq_true, if_false]
    exact ⟨by trivial, by trivial, by trivial⟩

theorem upd0_step (mc : MeleeController) (f : Int × Int) (E : List Rect)
    (hth : thresholdOK mc) (hnp : noPending mc f E) :
    ((mc.update f E 0).1.phase = mc.phase ∧
      (mc.update f E 0).1.phase_time = mc.phase_time ∧
      Option.map (fun hb => hb.elapsed) (mc.update f E 0).1.hitbox
        = Option.map (fun hb => hb.elapsed) mc.hitbox ∧
      Option.map (fun hb => hb.last_hit_time_by_enemy)
          (mc.update f E 0).1.hitbox
        = Option.map (fun hb => hb.last_hit_time_by_enemy) mc.hitbox ∧
      (mc.update f E 0).2 = []) ∧
    thresholdOK (mc.update f E 0).1 ∧ noPending (mc.update f E 0).1 f E := by
  by_cases hidle : mc.phase = .idle
  · have heq : mc.update f E 0 = (mc, []) := by
      simp [MeleeController.update, hidle]
    rw [heq]
    exact ⟨⟨rfl, rfl, rfl, rfl, rfl⟩, hth, hnp⟩
  · cases hhb : mc.hitbox with
    | none =>
      simp only [MeleeController.update, if_neg hidle,
        MeleeController.hbStep, hhb]
      split_ifs with c1 c2 c3
      · exfalso
        have h1 := hth.1 c1.1
        have h2 : mc.spec.windup_ms ≤ mc.phase_time + 0 := c1.2
        omega
      · exfalso
        have h1 := hth.2.1 c2.1
        have h2 : mc.spec.windup_ms + mc.spec.active_ms
            ≤ mc.phase_time + 0 := c2.2
        omega
      · exfalso
        have h1 := hth.2.2 c3.1
        have h2 : mc.spec.total_ms ≤ mc.phase_time + 0 := c3.2
        omega
      · refine ⟨⟨rfl, add_zero _, rfl, rfl, rfl⟩, ?_, ?_⟩
        · refine ⟨fun hp => ?_, fun hp => ?_, fun hp => ?_⟩
          · show mc.phase_time + 0 < mc.spec.windup_ms
            have := hth.1 hp
            omega
          · show mc.phase_time + 0 < mc.spec.windup_ms + mc.spec.active_ms
            have := hth.2.1 hp
            omega
          · show mc.phase_time + 0 < mc.spec.total_ms
            have := hth.2.2 hp
            omega
        · intro hb2 hcon
          exact Option.noConfusion hcon
    | some hb =>
      have hu := hb_update_zero { hb with facing := mc.effFacing f }
        mc.ownerRect E (hnp hb hhb)
      cases hk : ({ hb with facing := mc.effFacing f }.update
          mc.ownerRect E 0).killed <;>
      · simp only [MeleeController.update, if_neg hidle,
          MeleeController.hbStep, hhb, hk, Bool.false_eq_true, if_false,
          if_true]
        split_ifs with c1 c2 c3 c4
        · exfalso
          have h1 := hth.1 c1.1
          have h2 : mc.spec.windup_ms ≤ mc.phase_time + 0 := c1.2
          omega
        · exfalso
          have h1 := hth.2.1 c2.1
          have h2 : mc.spec.windup_ms + mc.spec.active_ms
              ≤ mc.phase_time + 0 := c2.2
          omega
        · exfalso
          have h1 := hth.2.2 c3.1
          have h2 : mc.spec.total_ms ≤ mc.phase_time + 0 := c3.2
          omega
        · exfalso
          have h1 := hth.2.2 c3.1
          have h2 : mc.spec.total_ms ≤ mc.phase_time + 0 := c3.2
          omega
        · refine ⟨⟨rfl, add_zero _, ?_, ?_, hu.1⟩, ?_, ?_⟩
          · exact congrArg some hu.2.1
          · exact congrArg some hu.2.2
          · refine ⟨fun hp => ?_, fun hp => ?_, fun hp => ?_⟩
            · show mc.phase_time + 0 < mc.spec.windup_ms
              have := hth.1 hp
              omega
            · show mc.phase_time + 0 < mc.spec.windup_ms + mc.spec.active_ms
              have := hth.2.1 hp
              omega
            · show mc.phase_time + 0 < mc.spec.total_ms
              have := hth.2.2 hp
              omega
          · intro hb2 hcon hw p hp hc
            have hbeq : ({ hb with facing := mc.effFacing f }.update
              mc.ownerRect E 0).hb = hb2 := Option.some.inj hcon
            subst hbeq
            rw [hu.2.1] at hw
            have hw2 : hb.active_start ≤ hb.elapsed ∧
                hb.elapsed < hb.active_end := hw
            have hc2 : (reposition mc.ownerRect hb.spec.front_gap_px
                (mc.effFacing f) hb.rect).colliderect p.2 = true := by
              rw [show reposition mc.ownerRect hb.spec.front_gap_px
                (mc.effFacing f) hb.rect
                = reposition mc.ownerRect hb.spec.front_gap_px (mc.effFacing f)
                  (reposition mc.ownerRect hb.spec.front_gap_px
                    (mc.effFacing f) hb.rect)
                from (reposition_idem mc.ownerRect hb.spec.front_gap_px
                  (mc.effFacing f) hb.rect).symm]
              exact hc
            have hres := hnp hb hhb hw2 p hp hc2
            have hgoal : blockedB hb.spec.multi_hit_interval_ms
                (({ hb with facing := mc.effFacing f }.update
                  mc.ownerRect E 0).hb.elapsed)
                (({ hb with facing := mc.effFacing f }.update
                  mc.ownerRect E 0).hb.last_hit_time_by_enemy) p.1 = true := by
              rw [hu.2.1, hu.2.2]
              exact hres
            exact hgoal

/-- C9 amended: `update(0)` never changes `phase_time`, the hitbox's
elapsed time or its hit records, and fires no callback, provided no hit is
pending (every overlapping target is blocked by the hit table whenever the
hitbox sits in its active window); the phase is also unchanged provided
`phase_time` is still strictly below the current phase's transition
threshold — otherwise a zero-delta update can advance the phase. -/
theorem C9_update0_noop (mc : MeleeController) (f : Int × Int)
    (E : List Rect) (n : Nat) (hth : thresholdOK mc)
    (hnp : noPending mc f E) :
    (runEv mc (List.replicate n (.upd f E 0))).1.phase = mc.phase ∧
    (runEv mc (List.replicate n (.upd f E 0))).1.phase_time = mc.phase_time ∧
    Option.map (fun hb => hb.elapsed)
        (runEv mc (List.replicate n (.upd f E 0))).1.hitbox
      = Option.map (fun hb => hb.elapsed) mc.hitbox ∧
    Option.map (fun hb => hb.last_hit_time_by_enemy)
        (runEv mc (List.replicate n (.upd f E 0))).1.hitbox
      = Option.map (fun hb => hb.last_hit_time_by_enemy) mc.hitbox ∧
    (runEv mc (List.replicate n (.upd f E 0))).2 = [] := by
  induction n generalizing mc with
  | zero => exact ⟨rfl, rfl, rfl, rfl, rfl⟩
  | succ m ih =>
    obtain ⟨⟨h1, h2, h3, h4, h5⟩, hth2, hnp2⟩ := upd0_step mc f E hth hnp
    have hrest := ih (mc.update f E 0).1 hth2 hnp2
    simp only [List.replicate, runEv, stepEv]
    refine ⟨?_, ?_, ?_, ?_, ?_⟩
    · rw [hrest.1, h1]
    · rw [hrest.2.1, h2]
    · rw [hrest.2.2.1, h3]
    · rw [hrest.2.2.2.1, h4]
    · rw [h5, hrest.2.2.2.2]
      rfl

/-- Witness for C9 amended: three zero-delta updates from a mid-window
state with the overlapping enemy already recorded change nothing. -/
theorem C9_update0_noop_witness :
    (runEv mcMid (List.replicate 3 (.upd (1, 0) [bigE] 0))).1.phase
      = mcMid.phase ∧
    (runEv mcMid (List.replicate 3 (.upd (1, 0) [bigE] 0))).2 = [] := by
  have h := C9_update0_noop mcMid (1, 0) [bigE] 3
    ⟨fun h1 => absurd h1 (by decide), fun _ => by decide,
      fun h3 => absurd h3 (by decide)⟩
    (noPendingB_sound mcMid (1, 0) [bigE] (by decide))
  exact ⟨h.1, h.2.2.2.2⟩

theorem hitPass_mhpos_one (s : AttackSpec) (el t : Int) (R er : Rect)
    (hn : ¬s.multi_hit_interval_ms ≤ 0) (hc : R.colliderect er = true) :
    hitPass s el R [(0, er)] [(0, t)] =
      (if s.multi_hit_interval_ms ≤ el - t then ([(0, el)], [0])
       else ([(0, t)], [])) := by
  simp only [hitPass, hc, if_true, if_neg hn]
  rw [show dictGet [(0, t)] 0 = some t from rfl]
  simp only [Option.getD_some]
  split_ifs with hcond
  · rw [show dictSet [(0, t)] 0 el = [(0, el)] from rfl]
  · rfl

theorem hitPass_mhpos_fresh (s : AttackSpec) (el : Int) (R er : Rect)
    (hn : ¬s.multi_hit_interval_ms ≤ 0) (hc : R.colliderect er = true)
    (hcond : s.multi_hit_interval_ms ≤ el + 10000000) :
    hitPass s el R [(0, er)] [] = ([(0, el)], [0]) := by
  simp only [hitPass, hc, if_true, if_neg hn]
  rw [show dictGet ([] : List (Nat × Int)) 0 = none from rfl]
  simp only [Option.getD_none]
  rw [if_pos (show s.multi_hit_interval_ms ≤ el - (-10000000) by omega)]
  rw [show dictSet ([] : List (Nat × Int)) 0 el = [(0, el)] from rfl]

theorem C6_step (owner : Rect) (e : Rect) (w a n k : Int) (hb : AttackHitbox)
    (hw : 1 ≤ w) (ha : 1 ≤ a) (hn : 1 ≤ n) (hn7 : n ≤ 10000000) (hk : 0 ≤ k)
    (hspec : hb.spec.multi_hit_interval_ms = n)
    (has : hb.active_start = w) (hae : hb.active_end = w + a)
    (hel : hb.elapsed = k)
    (htbl : hb.last_hit_time_by_enemy = tblAt w a n k)
    (hcol : (reposition owner hb.spec.front_gap_px hb.facing hb.rect).colliderect
      e = true) :
    (hb.update owner [e] 1).hits.length + hitsUpTo w a n k
      = hitsUpTo w a n (k + 1) ∧
    (hb.update owner [e] 1).hb.last_hit_time_by_enemy = tblAt w a n (k + 1) ∧
    (hb.update owner [e] 1).hb.elapsed = k + 1 := by
  have hnle : ¬hb.spec.multi_hit_interval_ms ≤ 0 := by rw [hspec]; omega
  have henum : ([e] : List Rect).enum = [(0, e)] := rfl
  simp only [AttackHitbox.update, hel, has, hae, henum, htbl]
  by_cases hact : w ≤ k + 1 ∧ k + 1 < w + a
  · have hactb : (decide (w ≤ k + 1) && decide (k + 1 < w + a)) = true := by
      simp [hact.1, hact.2]
    simp only [hactb, if_true]
    by_cases hkw : k + 1 = w
    · have htblk : tblAt w a n k = [] := by
        unfold tblAt
        rw [if_pos (by omega : k < w)]
      rw [htblk]
      rw [hitPass_mhpos_fresh hb.spec (k + 1) _ e hnle hcol
        (by rw [hspec]; omega)]
      refine ⟨?_, ?_, by trivial⟩
      · unfold hitsUpTo
        rw [if_pos (by omega : k < w), if_neg (by omega : ¬k + 1 < w)]
        rw [min_eq_left (by omega : k + 1 ≤ w + a - 1), hkw]
        simp [Int.zero_ediv]
      · unfold tblAt
        rw [if_neg (by omega : ¬k + 1 < w)]
        rw [min_eq_left (by omega : k + 1 ≤ w + a - 1), hkw]
        simp [Int.zero_ediv]
    · have hkw2 : w ≤ k := by omega
      have hq0 : 0 ≤ (k - w) / n :=
        Int.ediv_nonneg (by omega) (by omega)
      have hkey := Int.ediv_add_emod (k - w) n
      have hr0 := Int.emod_nonneg (k - w) (by omega : n ≠ 0)
      have hrn := Int.emod_lt_of_pos (k - w) (by omega : (0 : Int) < n)
      have htblk : tblAt w a n k = [(0, w + n * ((k - w) / n))] := by
        unfold tblAt
        rw [if_neg (by omega : ¬k < w)]
        rw [min_eq_left (by omega : k ≤ w + a - 1)]
      rw [htblk]
      rw [hitPass_mhpos_one hb.spec (k + 1) (w + n * ((k - w) / n)) _ e hnle
        hcol]
      by_cases hhit : (k - w) % n = n - 1
      · have hcnd : hb.spec.multi_hit_interval_ms
            ≤ k + 1 - (w + n * ((k - w) / n)) := by
          rw [hspec]; omega
        rw [if_pos hcnd]
        have hexp : n * ((k - w) / n + 1) = n * ((k - w) / n) + n := by ring
        have hdiv : (k + 1 - w) / n = (k - w) / n + 1 := by
          have h1 : 0 + n * ((k - w) / n + 1) = k + 1 - w := by omega
          exact ((Int.ediv_emod_unique (by omega : (0 : Int) < n)).mpr
            ⟨h1, le_refl 0, by omega⟩).1
        refine ⟨?_, ?_, by trivial⟩
        · unfold hitsUpTo
          rw [if_neg (by omega : ¬k < w), if_neg (by omega : ¬k + 1 < w)]
          rw [min_eq_left (by omega : k ≤ w + a - 1),
            min_eq_left (by omega : k + 1 ≤ w + a - 1)]
          rw [hdiv]
          simp only [List.length_cons, List.length_nil]
          omega
        · unfold tblAt
          rw [if_neg (by omega : ¬k + 1 < w)]
          rw [min_eq_left (by omega : k + 1 ≤ w + a - 1)]
          rw [hdiv]
          have hval : w + n * ((k - w) / n + 1) = k + 1 := by omega
          rw [hval]
      · have hcnd : ¬hb.spec.multi_hit_interval_ms
            ≤ k + 1 - (w + n * ((k - w) / n)) := by
          rw [hspec]; omega
        rw [if_neg hcnd]
        have hdiv : (k + 1 - w) / n = (k - w) / n := by
          have h1 : ((k - w) % n + 1) + n * ((k - w) / n) = k + 1 - w := by
            omega
          exact ((Int.ediv_emod_unique (by omega : (0 : Int) < n)).mpr
            ⟨h1, by omega, by omega⟩).1
        refine ⟨?_, ?_, by trivial⟩
        · unfold hitsUpTo
          rw [if_neg (by omega : ¬k < w), if_neg (by omega : ¬k + 1 < w)]
          rw [min_eq_left (by omega : k ≤ w + a - 1),
            min_eq_left (by omega : k + 1 ≤ w + a - 1)]
          rw [hdiv]
          simp
        · unfold tblAt
          rw [if_neg (by omega : ¬k + 1 < w)]
          rw [min_eq_left (by omega : k + 1 ≤ w + a - 1)]
          rw [hdiv]
  · have hactb : (decide (w ≤ k + 1) && decide (k + 1 < w + a)) = false := by
      rw [Bool.and_eq_false_iff]
      rcases Decidable.not_and_iff_or_not.mp hact with h | h
      · exact Or.inl (by simpa using h)
      · exact Or.inr (by simpa using h)
    simp only [hactb, Bool.false_eq_true, if_false]
    rcases Decidable.not_and_iff_or_not.mp hact with hno | hno
    · have hlt : k + 1 < w := by omega
      refine ⟨?_, ?_, by trivial⟩
      · unfold hitsUpTo
        rw [if_pos (by omega : k < w), if_pos hlt]
        simp
      · unfold tblAt
        rw [if_pos (by omega : k < w), if_pos hlt]
    · have hge : w + a ≤ k + 1 := by omega
      have hgw : w ≤ k := by omega
      refine ⟨?_, ?_, by trivial⟩
      · unfold hitsUpTo
        rw [if_neg (by omega : ¬k < w), if_neg (by omega : ¬k + 1 < w)]
        rw [min_eq_right (by omega : w + a - 1 ≤ k),
          min_eq_right (by omega : w + a - 1 ≤ k + 1)]
        simp
      · unfold tblAt
        rw [if_neg (by omega : ¬k < w), if_neg (by omega : ¬k + 1 < w)]
        rw [min_eq_right (by omega : w + a - 1 ≤ k),
          min_eq_right (by omega : w + a - 1 ≤ k + 1)]

theorem C6_run (owner : Rect) (e : Rect) (w a n : Int)
    (hw : 1 ≤ w) (ha : 1 ≤ a) (hn : 1 ≤ n) (hn7 : n ≤ 10000000) :
    ∀ (T : Nat) (k : Int) (hb : AttackHitbox), 0 ≤ k →
    hb.spec.multi_hit_interval_ms = n → hb.active_start = w →
    hb.active_end = w + a → hb.elapsed = k →
    hb.last_hit_time_by_enemy = tblAt w a n k →
    (reposition owner hb.spec.front_gap_px hb.facing hb.rect).colliderect e
      = true →
    (runHB hb owner (List.replicate T (1, [e]))).2.length + hitsUpTo w a n k
      = hitsUpTo w a n (k + T) := by
  intro T
  induction T with
  | zero =>
    intro k hb hk h1 h2 h3 h4 h5 h6
    simp [runHB]
  | succ m ih =>
    intro k hb hk h1 h2 h3 h4 h5 h6
    have hstep := C6_step owner e w a n k hb hw ha hn hn7 hk h1 h2 h3 h4 h5 h6
    have hrest := ih (k + 1) (hb.update owner [e] 1).hb (by omega)
      (by rw [AttackHitbox.update_spec]; exact h1)
      ((AttackHitbox.update_bounds hb owner [e] 1).1.trans h2)
      ((AttackHitbox.update_bounds hb owner [e] 1).2.1.trans h3)
      hstep.2.2 hstep.2.1
      (by rw [AttackHitbox.update_spec, AttackHitbox.update_facing,
        AttackHitbox.update_rect, reposition_idem]; exact h6)
    simp only [List.replicate, runHB, List.length_append]
    have harg : k + ((m + 1 : Nat) : Int) = (k + 1) + (m : Int) := by
      push_cast; ring
    rw [harg]
    omega

/-- C6 amended: with `multi_hit_interval_ms = N` in `[1, 10^7]`,
`windup_ms ≥ 1`, `active_ms ≥ 1`, a permanently overlapping target, and
`update` driven in 1 ms steps spanning the whole active window, the number
of damage callbacks equals `ceil(active_ms / N) = (active_ms - 1) / N + 1`:
one at window entry and one per whole elapsed interval, but bounded by the
window's half-open end, so the spec's `floor(active_ms / N) + 1` overcounts
by one exactly when N divides active_ms; coarser frames deliver fewer. -/
theorem C6_multi_hit_count (s : AttackSpec) (owner : Rect) (fv : Int × Int)
    (e : Rect) (T : Nat)
    (hn : 1 ≤ s.multi_hit_interval_ms)
    (hn7 : s.multi_hit_interval_ms ≤ 10000000)
    (hw : 1 ≤ s.windup_ms) (ha : 1 ≤ s.active_ms)
    (hcol : Rect.colliderect (AttackHitbox.init 0 owner s fv).rect e = true)
    (hT : s.windup_ms + s.active_ms ≤ (T : Int)) :
    (runHB (AttackHitbox.init 0 owner s fv) owner
        (List.replicate T ((1 : Int), [e]))).2.length
      = ((s.active_ms - 1) / s.multi_hit_interval_ms).toNat + 1 := by
  have htbl0 : (AttackHitbox.init 0 owner s fv).last_hit_time_by_enemy
      = tblAt s.windup_ms s.active_ms s.multi_hit_interval_ms 0 := by
    unfold tblAt
    rw [if_pos (by omega : (0 : Int) < s.windup_ms)]
    rfl
  have h := C6_run owner e s.windup_ms s.active_ms s.multi_hit_interval_ms
    hw ha hn hn7 T 0 (AttackHitbox.init 0 owner s fv) le_rfl
    rfl rfl rfl rfl htbl0
    (by rw [init_reposition_fix]; exact hcol)
  have h0 : hitsUpTo s.windup_ms s.active_ms s.multi_hit_interval_ms 0
      = 0 := by
    unfold hitsUpTo
    rw [if_pos (by omega : (0 : Int) < s.windup_ms)]
  have hTv : hitsUpTo s.windup_ms s.active_ms s.multi_hit_interval_ms
      ((0 : Int) + T)
      = ((s.active_ms - 1) / s.multi_hit_interval_ms).toNat + 1 := by
    unfold hitsUpTo
    rw [if_neg (by omega : ¬(0 : Int) + T < s.windup_ms)]
    rw [min_eq_right (by omega :
      s.windup_ms + s.active_ms - 1 ≤ (0 : Int) + T)]
    rw [show s.windup_ms + s.active_ms - 1 - s.windup_ms = s.active_ms - 1
      from by ring]
  omega

/-- Witness for C6 amended: windup 2, active 3, interval 2, five 1 ms
frames; the count is ceil(3/2) = 2. -/
theorem C6_multi_hit_count_witness :
    (runHB (AttackHitbox.init 0 owner0 spec6W (1, 0)) owner0
        (List.replicate 5 ((1 : Int), [bigE]))).2.length
      = ((spec6W.active_ms - 1) / spec6W.multi_hit_interval_ms).toNat + 1 :=
  C6_multi_hit_count spec6W owner0 (1, 0) bigE 5 (by decide) (by decide)
    (by decide) (by decide) (by decide) (by decide)

/-- C9 fails as stated: from the reachable state `mcOver` (one 300 ms update
after starting), the phase timer has already passed the active → recovery
threshold, so a single `update(0)` advances the phase. -/
theorem C9_counterexample :
    mcOver.phase = Phase.active ∧
    (mcOver.update (1, 0) [farE] 0).1.phase = Phase.recovery := by
  decide

theorem windup_overshoot_step (mc : MeleeController) (f : Int × Int)
    (E : List Rect) (dt : Int) (hb : AttackHitbox)
    (h1 : mc.phase = .windup) (hhb : mc.hitbox = some hb)
    (h3 : mc.spec.windup_ms ≤ mc.phase_time + dt)
    (h4 : hb.duration ≤ hb.elapsed + dt)
    (hgrp : mc.attack_group = [hb.id]) :
    (mc.update f E dt).1.phase = Phase.active ∧
    (mc.update f E dt).1.attack_group = [] ∧
    ((mc.update f E dt).1.hitbox).isSome = true ∧
    (mc.update f E dt).1.phase_time = mc.phase_time + dt ∧
    (mc.update f E dt).1.spec = mc.spec := by
  have hnidle : ¬mc.phase = .idle := by
    rw [h1]; exact fun hcon => Phase.noConfusion hcon
  have hkill : ({ hb with facing := mc.effFacing f }.update
      mc.ownerRect E dt).killed = true := decide_eq_true h4
  simp only [MeleeController.update, if_neg hnidle,
    MeleeController.hbStep, hhb]
  rw [if_pos hkill, hgrp]
  have hge : List.erase [hb.id] (({ hb with facing := mc.effFacing f }.update
      mc.ownerRect E dt).hb.id) = [] := by
    show List.erase [hb.id] hb.id = []
    exact List.erase_cons_head hb.id []
  rw [hge]
  split_ifs with c1 c2 c3
  · exact ⟨rfl, rfl, rfl, rfl, rfl⟩
  all_goals exact absurd ⟨h1, h3⟩ c1

theorem active_threshold_step (mc : MeleeController) (f : Int × Int)
    (E : List Rect) (dt : Int) (h1 : mc.phase = .active)
    (h2 : mc.spec.windup_ms + mc.spec.active_ms ≤ mc.phase_time + dt) :
    (mc.update f E dt).1.phase = Phase.recovery ∧
    (mc.update f E dt).1.phase_time = mc.phase_time + dt ∧
    (mc.update f E dt).1.spec = mc.spec := by
  have hnidle : ¬mc.phase = .idle := by
    rw [h1]; exact fun hcon => Phase.noConfusion hcon
  simp only [MeleeController.update, if_neg hnidle]
  split_ifs with c1 c2 c3
  · exfalso
    have hcp : (mc.hbStep f E dt).1.phase = Phase.windup := c1.1
    rw [hbStep_phase, h1] at hcp
    exact Phase.noConfusion hcp
  · refine ⟨rfl, ?_, ?_⟩
    · show (mc.hbStep f E dt).1.phase_time + dt = mc.phase_time + dt
      rw [(hbStep_fields mc f E dt).2.1]
    · show (mc.hbStep f E dt).1.spec = mc.spec
      exact (hbStep_fields mc f E dt).2.2.1
  · exfalso
    have hcp : (mc.hbStep f E dt).1.phase = Phase.recovery := c3.1
    rw [hbStep_phase, h1] at hcp
    exact Phase.noConfusion hcp
  · exfalso
    apply c2
    constructor
    · show (mc.hbStep f E dt).1.phase = Phase.active
      rw [hbStep_phase]; exact h1
    · show (mc.hbStep f E dt).1.spec.windup_ms +
        (mc.hbStep f E dt).1.spec.active_ms
          ≤ (mc.hbStep f E dt).1.phase_time + dt
      rw [(hbStep_fields mc f E dt).2.2.1, (hbStep_fields mc f E dt).2.1]
      exact h2

theorem recovery_threshold_step (mc : MeleeController) (f : Int × Int)
    (E : List Rect) (dt : Int) (h1 : mc.phase = .recovery)
    (h2 : mc.spec.total_ms ≤ mc.phase_time + dt) :
    (mc.update f E dt).1.phase = Phase.idle ∧
    (mc.update f E dt).1.hitbox = none := by
  have hnidle : ¬mc.phase = .idle := by
    rw [h1]; exact fun hcon => Phase.noConfusion hcon
  simp only [MeleeController.update, if_neg hnidle]
  split_ifs with c1 c2 c3
  · exfalso
    have hcp : (mc.hbStep f E dt).1.phase = Phase.windup := c1.1
    rw [hbStep_phase, h1] at hcp
    exact Phase.noConfusion hcp
  · exfalso
    have hcp : (mc.hbStep f E dt).1.phase = Phase.active := c2.1
    rw [hbStep_phase, h1] at hcp
    exact Phase.noConfusion hcp
  · exact ⟨rfl, rfl⟩
  · exfalso
    apply c3
    constructor
    · show (mc.hbStep f E dt).1.phase = Phase.recovery
      rw [hbStep_phase]; exact h1
    · show (mc.hbStep f E dt).1.spec.total_ms
        ≤ (mc.hbStep f E dt).1.phase_time + dt
      rw [(hbStep_fields mc f E dt).2.2.1, (hbStep_fields mc f E dt).2.1]
      exact h2

/-- C10 amended: a single `update` advances the phase by at most one
transition even for arbitrarily large dt.  After `try_start` and one update
with dt ≥ total_ms, the phase has moved only from windup to active while
the hitbox has already self-killed (removed from the attack group, though
still referenced); two further updates — not three — are needed before the
controller returns to idle and drops the hitbox reference. -/
theorem C10_one_transition (s : AttackSpec) (owner : Rect)
    (f f1 f2 f3 : Int × Int) (E1 E2 E3 : List Rect) (dt d2 d3 : Int)
    (ha : 0 ≤ s.active_ms) (hr : 0 ≤ s.recovery_ms) (hdt : s.total_ms ≤ dt)
    (hd2 : 0 ≤ d2) (hd3 : 0 ≤ d3) :
    ((((MeleeController.mk0 s owner).try_start f).1.update f1 E1 dt).1.phase
        = Phase.active) ∧
    ((((MeleeController.mk0 s owner).try_start f).1.update f1 E1
        dt).1.attack_group = []) ∧
    (((((MeleeController.mk0 s owner).try_start f).1.update f1 E1
        dt).1.hitbox).isSome = true) ∧
    ((((((MeleeController.mk0 s owner).try_start f).1.update f1 E1
        dt).1.update f2 E2 d2).1.phase = Phase.recovery)) ∧
    ((((((MeleeController.mk0 s owner).try_start f).1.update f1 E1
        dt).1.update f2 E2 d2).1.update f3 E3 d3).1.phase = Phase.idle) ∧
    ((((((MeleeController.mk0 s owner).try_start f).1.update f1 E1
        dt).1.update f2 E2 d2).1.update f3 E3 d3).1.hitbox = none) := by
  have htot : s.total_ms = s.windup_ms + s.active_ms + s.recovery_ms := rfl
  have hs1 := windup_overshoot_step ((MeleeController.mk0 s owner).try_start
      f).1 f1 E1 dt
    (AttackHitbox.init 0 owner s
      ((if s.lock_facing_during_attack = true
        then some (sgn f.1, sgn f.2) else none).getD f))
    rfl rfl
    (by show s.windup_ms ≤ 0 + dt; rw [htot] at hdt; omega)
    (by show s.total_ms ≤ 0 + dt; omega)
    rfl
  have hs2 := active_threshold_step
    (((MeleeController.mk0 s owner).try_start f).1.update f1 E1 dt).1
    f2 E2 d2 hs1.1
    (by rw [hs1.2.2.2.2, hs1.2.2.2.1]
        show s.windup_ms + s.active_ms ≤ 0 + dt + d2
        rw [htot] at hdt
        omega)
  have hs3 := recovery_threshold_step
    ((((MeleeController.mk0 s owner).try_start f).1.update f1 E1
      dt).1.update f2 E2 d2).1 f3 E3 d3 hs2.1
    (by rw [hs2.2.2, hs2.2.1, hs1.2.2.2.2, hs1.2.2.2.1]
        show s.total_ms ≤ 0 + dt + d2 + d3
        omega)
  exact ⟨hs1.1, hs1.2.1, hs1.2.2.1, hs2.1, hs3.1, hs3.2⟩

/-- Witness for C10 amended at the default spec with a 500 ms first frame. -/
theorem C10_one_transition_witness :
    ((mcW.update (1, 0) [farE] 500).1.phase = Phase.active) ∧
    ((((mcW.update (1, 0) [farE] 500).1.update (1, 0) [farE] 0).1.update
        (1, 0) [farE] 0).1.phase = Phase.idle) := by
  have h := C10_one_transition spec0 owner0 (1, 0) (1, 0) (1, 0) (1, 0)
    [farE] [farE] [farE] 500 0 0 (by decide) (by decide) (by decide)
    (by decide) (by decide)
  exact ⟨h.1, h.2.2.2.2.1⟩

/-- C10 fails as stated: after `try_start` and one 500 ms update (phase
windup → active only), two further updates — not three — return the
controller to idle. -/
theorem C10_counterexample :
    (runEv mcW [.upd (1, 0) [farE] 500]).1.phase = Phase.active ∧
    (runEv mcW [.upd (1, 0) [farE] 500, .upd (1, 0) [farE] 0,
      .upd (1, 0) [farE] 0]).1.phase = Phase.idle := by
  decide

end Melee
